import Mathlib

/-!
Shallow embedding of the time-qualified query layer of the ign-transport
message-logging facility: the `QualifiedTime`, `QualifiedTimeRange` and
`Message` value types declared in
`log/include/ignition/transport/log/QualifiedTime.hh` and the `Message`
header. The repository excerpt contains only the headers (declarations and
doc comments); the member-function bodies are not part of the excerpt, so
each operation below is modelled from the specification's description of
its behavior, staying faithful to the header's doc comments.
-/

namespace IgnTransportLog

/-- Modelled from the spec: the `Time` representation is
`std::chrono::nanoseconds`, a signed nanosecond count, embedded as `Int`. -/
abbrev Time := Int

/-- The four matching qualifiers of `QualifiedTime::Qualifier`
(QualifiedTime.hh lines 27-42). -/
inductive Qualifier where
  | OrClosestBefore : Qualifier
  | ClosestBefore : Qualifier
  | OrClosestAfter : Qualifier
  | ClosestAfter : Qualifier
deriving DecidableEq, Repr

/-- Modelled from the spec: a `QualifiedTime` is in exactly one of two
states, indeterminate (no instant, no qualifier) or pinned
(instant + qualifier); the `.cc` implementation is not in the excerpt. -/
inductive QualifiedTime where
  | indeterminate : QualifiedTime
  | pinned : Time → Qualifier → QualifiedTime
deriving DecidableEq, Repr

namespace QualifiedTime

/-- Modelled from the spec: the pinned constructor
`QualifiedTime(const Time &, Qualifier)` produces a pinned value. -/
def mkPinned (t : Time) (q : Qualifier) : QualifiedTime :=
  pinned t q

/-- Modelled from the spec: the pinned constructor with its defaulted
qualifier argument; the header (QualifiedTime.hh line 64) declares the
default as `OrClosestBefore`. -/
def mkPinnedDefault (t : Time) : QualifiedTime :=
  mkPinned t Qualifier.OrClosestBefore

/-- Modelled from the spec: `IsIndeterminate()` is true iff no instant is
held. -/
def IsIndeterminate : QualifiedTime → Bool
  | indeterminate => true
  | pinned _ _ => false

/-- Modelled from the spec: `GetTime()` returns the instant if pinned,
otherwise an explicit absent value (a null pointer in the header; `none`
here). -/
def GetTime : QualifiedTime → Option Time
  | indeterminate => none
  | pinned t _ => some t

/-- Modelled from the spec: `GetQualifier()` returns the qualifier if
pinned, otherwise an explicit absent value. -/
def GetQualifier : QualifiedTime → Option Qualifier
  | indeterminate => none
  | pinned _ q => some q

/-- Modelled from the spec: `SetTime(instant, qualifier)` mutates the
object to pinned with the given values, whatever its prior state. -/
def SetTime (_self : QualifiedTime) (t : Time) (q : Qualifier) : QualifiedTime :=
  pinned t q

/-- Modelled from the spec: `SetTime(instant)` with the qualifier argument
omitted; the header (QualifiedTime.hh line 119) declares the default as
`OrClosestBefore`. -/
def SetTimeDefault (self : QualifiedTime) (t : Time) : QualifiedTime :=
  SetTime self t Qualifier.OrClosestBefore

/-- Modelled from the spec: `Clear()` mutates the object to indeterminate,
discarding any prior pinned value. -/
def Clear (_self : QualifiedTime) : QualifiedTime :=
  indeterminate

/-- Modelled from the spec: copy construction / copy assignment produce a
fully independent value with identical observable accessor results. -/
def copy (self : QualifiedTime) : QualifiedTime :=
  self

end QualifiedTime

/-- Modelled from the spec: a `QualifiedTimeRange` is a pair of
`QualifiedTime` endpoints (start, finish). -/
structure QualifiedTimeRange where
  start : QualifiedTime
  finish : QualifiedTime
deriving DecidableEq, Repr

namespace QualifiedTimeRange

/-- Modelled from the spec: `GetStart()` reads the start endpoint. -/
def GetStart (r : QualifiedTimeRange) : QualifiedTime :=
  r.start

/-- Modelled from the spec: `GetFinish()` reads the finish endpoint. -/
def GetFinish (r : QualifiedTimeRange) : QualifiedTime :=
  r.finish

/-- Modelled from the spec: `Valid()` is true iff either endpoint is
indeterminate, or the finish endpoint's raw instant is not earlier than
the start endpoint's raw instant (raw instants only; qualifiers are not
involved). -/
def Valid (r : QualifiedTimeRange) : Bool :=
  match r.start.GetTime, r.finish.GetTime with
  | some s, some f => decide (s ≤ f)
  | _, _ => true

/-- Modelled from the spec: `SetStart(newStart)` replaces the start
endpoint unconditionally and returns the post-mutation `Valid()` result.
The returned pair is (returned boolean, post-mutation state). -/
def SetStart (r : QualifiedTimeRange) (s : QualifiedTime) : Bool × QualifiedTimeRange :=
  let r2 : QualifiedTimeRange := ⟨s, r.finish⟩
  (r2.Valid, r2)

/-- Modelled from the spec: `SetFinish(newFinish)` replaces the finish
endpoint unconditionally and returns the post-mutation `Valid()` result. -/
def SetFinish (r : QualifiedTimeRange) (f : QualifiedTime) : Bool × QualifiedTimeRange :=
  let r2 : QualifiedTimeRange := ⟨r.start, f⟩
  (r2.Valid, r2)

/-- Modelled from the spec: `SetRange(newStart, newFinish)` replaces both
endpoints together and returns the post-mutation `Valid()` result. -/
def SetRange (_r : QualifiedTimeRange) (s f : QualifiedTime) : Bool × QualifiedTimeRange :=
  let r2 : QualifiedTimeRange := ⟨s, f⟩
  (r2.Valid, r2)

/-- Modelled from the spec: `From(start)` builds a range with the given
start and an indeterminate finish. -/
def From (s : QualifiedTime) : QualifiedTimeRange :=
  ⟨s, QualifiedTime.indeterminate⟩

/-- Modelled from the spec: `Until(finish)` builds a range with an
indeterminate start and the given finish. -/
def Until (f : QualifiedTime) : QualifiedTimeRange :=
  ⟨QualifiedTime.indeterminate, f⟩

/-- Modelled from the spec: `AllTime()` builds a range with both endpoints
indeterminate. -/
def AllTime : QualifiedTimeRange :=
  ⟨QualifiedTime.indeterminate, QualifiedTime.indeterminate⟩

/-- Modelled from the spec: copy construction / copy assignment produce a
fully independent value with identical observable accessor results. -/
def copy (self : QualifiedTimeRange) : QualifiedTimeRange :=
  self

end QualifiedTimeRange

/-- A byte, as stored in a message payload; payloads may contain embedded
zero bytes. -/
abbrev Byte := Nat

/-- Modelled from the spec: the exclusive internal copy that the `Message`
constructor takes of a caller buffer, reading exactly `len` bytes starting
at the buffer's first byte (the buffer is a function from byte index to
byte value, so the copy is a snapshot independent of the source buffer). -/
def copyBuffer (buf : Nat → Byte) (len : Nat) : List Byte :=
  (List.range len).map buf

/-- Modelled from the spec: a `Message` holds one immutable recorded
publication — receive time, payload bytes, type name, topic name — as
independent copies owned by the object. -/
structure Message where
  timeRecv : Time
  payload : List Byte
  typeName : List Byte
  topicName : List Byte
deriving DecidableEq, Repr

namespace Message

/-- Modelled from the spec: the default constructor yields an empty
payload, empty type, empty topic and a zero receive time. -/
def mkDefault : Message :=
  ⟨0, [], [], []⟩

/-- Modelled from the spec: the full constructor
`Message(timeRecv, data, dataLen, type, typeLen, topic, topicLen)` takes
an exclusive internal copy of the payload and of the two name strings;
the lengths are explicit, so payloads may contain embedded zero bytes and
the names need not be terminated in the caller's buffer. -/
def create (timeRecv : Time)
    (dataBuf : Nat → Byte) (dataLen : Nat)
    (typeBuf : Nat → Byte) (typeLen : Nat)
    (topicBuf : Nat → Byte) (topicLen : Nat) : Message :=
  ⟨timeRecv, copyBuffer dataBuf dataLen, copyBuffer typeBuf typeLen,
    copyBuffer topicBuf topicLen⟩

/-- Modelled from the spec: `Data()` returns a copy of the payload
bytes. -/
def Data (m : Message) : List Byte :=
  m.payload

/-- Modelled from the spec: `Type()` returns a copy of the message type
name (named `TypeName` here because `Type` is reserved in Lean). -/
def TypeName (m : Message) : List Byte :=
  m.typeName

/-- Modelled from the spec: `Topic()` returns a copy of the topic name. -/
def Topic (m : Message) : List Byte :=
  m.topicName

/-- Modelled from the spec: `TimeReceived()` returns the receive
instant. -/
def TimeReceived (m : Message) : Time :=
  m.timeRecv

end Message

/-- The buffer holding the bytes of a concrete list, with zero past the
end; used to feed `Message.create` a concrete caller buffer. -/
def bufOf (bytes : List Byte) : Nat → Byte :=
  fun i => bytes.getD i 0

namespace QualifiedTime

/-- Modelled from the spec: the nearest sample strictly earlier than the
boundary instant `B` among the candidate samples (the matcher contract of
the spec, section 4.1; the matcher itself lives in the external query
engine, not in the excerpt). -/
def closestBefore (samples : List Time) (B : Time) : Option Time :=
  (samples.filter (fun x => decide (x < B))).max?

/-- Modelled from the spec: the nearest sample strictly later than the
boundary instant `B` among the candidate samples. -/
def closestAfter (samples : List Time) (B : Time) : Option Time :=
  (samples.filter (fun x => decide (B < x))).min?

/-- Modelled from the spec: the sample a matcher honoring the qualifier
contract selects for a pinned boundary `B` with qualifier `q` from the
candidate samples — the exact match or the nearest strictly earlier/later
sample for the exact-or-closest qualifiers, and the nearest strictly
earlier/later sample (exact match excluded) for the strict ones. -/
def select (samples : List Time) (B : Time) : Qualifier → Option Time
  | Qualifier.OrClosestBefore =>
      if B ∈ samples then some B else closestBefore samples B
  | Qualifier.ClosestBefore => closestBefore samples B
  | Qualifier.OrClosestAfter =>
      if B ∈ samples then some B else closestAfter samples B
  | Qualifier.ClosestAfter => closestAfter samples B

end QualifiedTime

/-- The mutating operations of `QualifiedTime` (SetTime with and without
its defaulted qualifier, and Clear), reified so that a statement can
quantify over an arbitrary subsequent mutation of a source object. -/
inductive QTMutation where
  | setTime : Time → Qualifier → QTMutation
  | setTimeDefault : Time → QTMutation
  | clear : QTMutation
deriving DecidableEq, Repr

/-- Apply a reified `QualifiedTime` mutation to an object. -/
def applyQT : QTMutation → QualifiedTime → QualifiedTime
  | QTMutation.setTime t q, self => self.SetTime t q
  | QTMutation.setTimeDefault t, self => self.SetTimeDefault t
  | QTMutation.clear, self => self.Clear

/-- The mutating operations of `QualifiedTimeRange` (SetStart, SetFinish,
SetRange), reified so that a statement can quantify over an arbitrary
subsequent mutation of a source object. -/
inductive QTRMutation where
  | setStart : QualifiedTime → QTRMutation
  | setFinish : QualifiedTime → QTRMutation
  | setRange : QualifiedTime → QualifiedTime → QTRMutation
deriving DecidableEq, Repr

/-- Apply a reified `QualifiedTimeRange` mutation to an object (keeping
only the post-mutation state, not the returned boolean). -/
def applyQTR : QTRMutation → QualifiedTimeRange → QualifiedTimeRange
  | QTRMutation.setStart s, r => (r.SetStart s).2
  | QTRMutation.setFinish f, r => (r.SetFinish f).2
  | QTRMutation.setRange s f, r => (r.SetRange s f).2

/-- The two-cell program `c := q.copy; q := applyQT m q`: copy a
`QualifiedTime`, then mutate the source; the result is the pair
(mutated source, copy). -/
def copyThenMutateQT (q : QualifiedTime) (m : QTMutation) :
    QualifiedTime × QualifiedTime :=
  let c := q.copy
  let q2 := applyQT m q
  (q2, c)

/-- The two-cell program `c := r.copy; r := applyQTR m r`: copy a
`QualifiedTimeRange`, then mutate the source; the result is the pair
(mutated source, copy). -/
def copyThenMutateQTR (r : QualifiedTimeRange) (m : QTRMutation) :
    QualifiedTimeRange × QualifiedTimeRange :=
  let c := r.copy
  let r2 := applyQTR m r
  (r2, c)

/-! ## Helper lemmas -/

instance : Std.Antisymm ((· : Int) ≤ ·) :=
  ⟨fun h h2 => Int.le_antisymm h h2⟩

/-- Copying `L.length` bytes out of the buffer holding `L` recovers
exactly `L`. -/
theorem copyBuffer_bufOf (L : List Byte) : copyBuffer (bufOf L) L.length = L := by
  apply List.ext_getElem
  · simp [copyBuffer]
  · intro i h1 h2
    simp [copyBuffer, bufOf, List.getElem?_eq_getElem h2]

/-- The buffer copy reads exactly the first `len` bytes: buffers agreeing
there produce the same copy. -/
theorem copyBuffer_congr (buf buf2 : Nat → Byte) (len : Nat)
    (h : ∀ i, i < len → buf i = buf2 i) :
    copyBuffer buf len = copyBuffer buf2 len := by
  apply List.ext_getElem
  · simp [copyBuffer]
  · intro i h1 h2
    simp only [copyBuffer, List.getElem_map, List.getElem_range]
    exact h i (by simpa [copyBuffer] using h1)

/-- Characterization of `closestBefore`: it returns `S` exactly when `S`
is a sample strictly earlier than `B` and no sample strictly earlier than
`B` is later than `S`. -/
theorem closestBefore_eq_some_iff {samples : List Time} {B S : Time} :
    QualifiedTime.closestBefore samples B = some S ↔
      S ∈ samples ∧ S < B ∧ ∀ x ∈ samples, x < B → x ≤ S := by
  unfold QualifiedTime.closestBefore
  rw [List.max?_eq_some_iff (fun a => Int.le_refl a)
    (fun a b => max_choice a b) (fun _ _ _ => max_le_iff)]
  constructor
  · rintro ⟨h1, h2⟩
    rw [List.mem_filter] at h1
    exact ⟨h1.1, by simpa using h1.2,
      fun x hx hlt => h2 x (List.mem_filter.mpr ⟨hx, by simpa using hlt⟩)⟩
  · rintro ⟨h1, h2, h3⟩
    refine ⟨List.mem_filter.mpr ⟨h1, by simpa using h2⟩, fun b hb => ?_⟩
    rw [List.mem_filter] at hb
    exact h3 b hb.1 (by simpa using hb.2)

/-- Characterization of `closestAfter`: it returns `S` exactly when `S`
is a sample strictly later than `B` and no sample strictly later than `B`
is earlier than `S`. -/
theorem closestAfter_eq_some_iff {samples : List Time} {B S : Time} :
    QualifiedTime.closestAfter samples B = some S ↔
      S ∈ samples ∧ B < S ∧ ∀ x ∈ samples, B < x → S ≤ x := by
  unfold QualifiedTime.closestAfter
  rw [List.min?_eq_some_iff (fun a => Int.le_refl a)
    (fun a b => min_choice a b) (fun _ _ _ => le_min_iff)]
  constructor
  · rintro ⟨h1, h2⟩
    rw [List.mem_filter] at h1
    exact ⟨h1.1, by simpa using h1.2,
      fun x hx hlt => h2 x (List.mem_filter.mpr ⟨hx, by simpa using hlt⟩)⟩
  · rintro ⟨h1, h2, h3⟩
    refine ⟨List.mem_filter.mpr ⟨h1, by simpa using h2⟩, fun b hb => ?_⟩
    rw [List.mem_filter] at hb
    exact h3 b hb.1 (by simpa using hb.2)

/-! ## Claim theorems -/

/-- C1: for every QualifiedTimeRange, `Valid()` returns true iff at least
one endpoint is indeterminate or the finish endpoint's raw instant is
greater than or equal to the start endpoint's raw instant; in particular,
for pinned instants t1 and t2 the range (QualifiedTime(t1),
QualifiedTime(t2)) is valid exactly when t1 ≤ t2, regardless of either
endpoint's qualifier. -/
theorem valid_iff_indeterminate_or_le :
    (∀ s f : QualifiedTime,
      (QualifiedTimeRange.mk s f).Valid = true ↔
        (s.IsIndeterminate = true ∨ f.IsIndeterminate = true ∨
          ∃ ts tf, s.GetTime = some ts ∧ f.GetTime = some tf ∧ ts ≤ tf)) ∧
    (∀ (t1 t2 : Time) (q1 q2 : Qualifier),
      (QualifiedTimeRange.mk (QualifiedTime.pinned t1 q1)
          (QualifiedTime.pinned t2 q2)).Valid = true ↔ t1 ≤ t2) := by
  constructor
  · intro s f
    cases s <;> cases f <;>
      simp [QualifiedTimeRange.Valid, QualifiedTime.GetTime,
        QualifiedTime.IsIndeterminate]
  · intro t1 t2 q1 q2
    simp [QualifiedTimeRange.Valid, QualifiedTime.GetTime]

/-- C1 witness: the range over pinned instants 3 and 7 is valid. -/
theorem valid_iff_indeterminate_or_le_witness :
    (QualifiedTimeRange.mk (QualifiedTime.pinned 3 Qualifier.ClosestAfter)
      (QualifiedTime.pinned 7 Qualifier.OrClosestBefore)).Valid = true :=
  (valid_iff_indeterminate_or_le.2 3 7 Qualifier.ClosestAfter
    Qualifier.OrClosestBefore).mpr (by decide)

/-- C2: `SetStart`, `SetFinish` and `SetRange` always apply the mutation
(the post-mutation endpoints are exactly the newly supplied values, the
untouched endpoint is retained) and return exactly the boolean that
`Valid()` yields immediately after the mutation, even when that boolean is
false. -/
theorem setters_mutate_and_report_valid (r : QualifiedTimeRange)
    (s f : QualifiedTime) :
    ((r.SetStart s).2.GetStart = s ∧ (r.SetStart s).2.GetFinish = r.GetFinish ∧
      (r.SetStart s).1 = (r.SetStart s).2.Valid) ∧
    ((r.SetFinish f).2.GetStart = r.GetStart ∧ (r.SetFinish f).2.GetFinish = f ∧
      (r.SetFinish f).1 = (r.SetFinish f).2.Valid) ∧
    ((r.SetRange s f).2.GetStart = s ∧ (r.SetRange s f).2.GetFinish = f ∧
      (r.SetRange s f).1 = (r.SetRange s f).2.Valid) :=
  ⟨⟨rfl, rfl, rfl⟩, ⟨rfl, rfl, rfl⟩, ⟨rfl, rfl, rfl⟩⟩

/-- C2 witness: the spec's end-to-end scenario — after
`From(QualifiedTime(100ns, exact-or-closest-after)).SetFinish(QualifiedTime(50ns))`
the finish endpoint reports the 50ns value even though the range became
invalid. -/
theorem setters_mutate_and_report_valid_witness :
    ((QualifiedTimeRange.From
        (QualifiedTime.pinned 100 Qualifier.OrClosestAfter)).SetFinish
      (QualifiedTime.pinned 50 Qualifier.OrClosestBefore)).2.GetFinish =
      QualifiedTime.pinned 50 Qualifier.OrClosestBefore :=
  (setters_mutate_and_report_valid
    (QualifiedTimeRange.From (QualifiedTime.pinned 100 Qualifier.OrClosestAfter))
    (QualifiedTime.pinned 50 Qualifier.OrClosestBefore)
    (QualifiedTime.pinned 50 Qualifier.OrClosestBefore)).2.1.2.1

/-- C3: `AllTime()` yields a valid range with both endpoints
indeterminate; for every QualifiedTime t, `From(t)` has start t,
indeterminate finish and is valid, and `Until(t)` has indeterminate
start, finish t and is valid. -/
theorem factories_indeterminate_and_valid :
    (QualifiedTimeRange.AllTime.GetStart.IsIndeterminate = true ∧
     QualifiedTimeRange.AllTime.GetFinish.IsIndeterminate = true ∧
     QualifiedTimeRange.AllTime.Valid = true) ∧
    (∀ t : QualifiedTime,
      (QualifiedTimeRange.From t).GetStart = t ∧
      (QualifiedTimeRange.From t).GetFinish.IsIndeterminate = true ∧
      (QualifiedTimeRange.From t).Valid = true) ∧
    (∀ t : QualifiedTime,
      (QualifiedTimeRange.Until t).GetStart.IsIndeterminate = true ∧
      (QualifiedTimeRange.Until t).GetFinish = t ∧
      (QualifiedTimeRange.Until t).Valid = true) := by
  refine ⟨⟨rfl, rfl, rfl⟩, fun t => ⟨rfl, rfl, ?_⟩, fun t => ⟨rfl, rfl, ?_⟩⟩
  · cases t <;> rfl
  · cases t <;> rfl

/-- C3 witness: `From(QualifiedTime(42ns, closest-before))` is valid. -/
theorem factories_indeterminate_and_valid_witness :
    (QualifiedTimeRange.From
      (QualifiedTime.pinned 42 Qualifier.ClosestBefore)).Valid = true :=
  (factories_indeterminate_and_valid.2.1
    (QualifiedTime.pinned 42 Qualifier.ClosestBefore)).2.2

/-- C4: every QualifiedTime is in exactly one of two states — either
indeterminate, with `IsIndeterminate()` true and both `GetTime()` and
`GetQualifier()` absent, or pinned, with `IsIndeterminate()` false and
both present; there is never a state with one of the pair present and
the other absent. -/
theorem qualifiedTime_exactly_two_states (qt : QualifiedTime) :
    (qt.IsIndeterminate = true ∧ qt.GetTime = none ∧ qt.GetQualifier = none) ∨
    (qt.IsIndeterminate = false ∧ (∃ t, qt.GetTime = some t) ∧
      (∃ q, qt.GetQualifier = some q)) := by
  cases qt with
  | indeterminate => exact Or.inl ⟨rfl, rfl, rfl⟩
  | pinned t q => exact Or.inr ⟨rfl, ⟨t, rfl⟩, ⟨q, rfl⟩⟩

/-- C4 witness: the two-state invariant at the indeterminate value. -/
theorem qualifiedTime_exactly_two_states_witness :
    (QualifiedTime.indeterminate.IsIndeterminate = true ∧
      QualifiedTime.indeterminate.GetTime = none ∧
      QualifiedTime.indeterminate.GetQualifier = none) ∨
    (QualifiedTime.indeterminate.IsIndeterminate = false ∧
      (∃ t, QualifiedTime.indeterminate.GetTime = some t) ∧
      (∃ q, QualifiedTime.indeterminate.GetQualifier = some q)) :=
  qualifiedTime_exactly_two_states QualifiedTime.indeterminate

/-- C5: constructing QualifiedTime(t, q), or calling `SetTime(t, q)` from
any prior state, yields `IsIndeterminate() == false`, `GetTime() == t`
and `GetQualifier() == q`; calling `Clear()` from any state yields
`IsIndeterminate() == true`. -/
theorem setTime_and_clear (prior : QualifiedTime) (t : Time) (q : Qualifier) :
    ((QualifiedTime.mkPinned t q).IsIndeterminate = false ∧
     (QualifiedTime.mkPinned t q).GetTime = some t ∧
     (QualifiedTime.mkPinned t q).GetQualifier = some q) ∧
    ((prior.SetTime t q).IsIndeterminate = false ∧
     (prior.SetTime t q).GetTime = some t ∧
     (prior.SetTime t q).GetQualifier = some q) ∧
    prior.Clear.IsIndeterminate = true :=
  ⟨⟨rfl, rfl, rfl⟩, ⟨rfl, rfl, rfl⟩, rfl⟩

/-- C5 witness: `SetTime(5ns, closest-after)` on an indeterminate value
pins the time to 5ns. -/
theorem setTime_and_clear_witness :
    (QualifiedTime.indeterminate.SetTime 5 Qualifier.ClosestAfter).GetTime =
      some 5 :=
  (setTime_and_clear QualifiedTime.indeterminate 5 Qualifier.ClosestAfter).2.1.2.1

/-- C6: a Message constructed from receive time S, payload bytes P (with
its length passed explicitly, so P may contain embedded zero bytes), type
name T and topic name N returns `Data() == P`, `Type() == T`,
`Topic() == N` and `TimeReceived() == S`; and the construction reads only
the declared prefix of each caller buffer (buffers agreeing on that
prefix yield the same Message), so the internal copies are independent of
the source buffers. -/
theorem message_roundtrip (S : Time) (P T N : List Byte) :
    ((Message.create S (bufOf P) P.length (bufOf T) T.length
        (bufOf N) N.length).Data = P ∧
     (Message.create S (bufOf P) P.length (bufOf T) T.length
        (bufOf N) N.length).TypeName = T ∧
     (Message.create S (bufOf P) P.length (bufOf T) T.length
        (bufOf N) N.length).Topic = N ∧
     (Message.create S (bufOf P) P.length (bufOf T) T.length
        (bufOf N) N.length).TimeReceived = S) ∧
    (∀ (dataBuf dataBuf2 typeBuf typeBuf2 topicBuf topicBuf2 : Nat → Byte)
       (dataLen typeLen topicLen : Nat),
      (∀ i, i < dataLen → dataBuf i = dataBuf2 i) →
      (∀ i, i < typeLen → typeBuf i = typeBuf2 i) →
      (∀ i, i < topicLen → topicBuf i = topicBuf2 i) →
      Message.create S dataBuf dataLen typeBuf typeLen topicBuf topicLen =
        Message.create S dataBuf2 dataLen typeBuf2 typeLen topicBuf2 topicLen) := by
  refine ⟨⟨copyBuffer_bufOf P, copyBuffer_bufOf T, copyBuffer_bufOf N, rfl⟩, ?_⟩
  intro d d2 tb tb2 nb nb2 dl tl nl h1 h2 h3
  unfold Message.create
  rw [copyBuffer_congr d d2 dl h1, copyBuffer_congr tb tb2 tl h2,
    copyBuffer_congr nb nb2 nl h3]

/-- C6 witness: a payload with an embedded zero byte round-trips, and two
constructions from buffers that agree on the declared prefixes coincide
even though the buffers differ past the payload length. -/
theorem message_roundtrip_witness :
    (Message.create 7 (bufOf [104, 0, 105]) 3 (bufOf [112]) 1
      (bufOf [116]) 1).Data = [104, 0, 105] ∧
    Message.create 7 (fun _ => 9) 0 (bufOf [112]) 1 (bufOf [116]) 1 =
      Message.create 7 (fun _ => 8) 0 (bufOf [112]) 1 (bufOf [116]) 1 :=
  ⟨(message_roundtrip 7 [104, 0, 105] [112] [116]).1.1,
   (message_roundtrip 7 [] [112] [116]).2 (fun _ => 9) (fun _ => 8)
     (bufOf [112]) (bufOf [112]) (bufOf [116]) (bufOf [116]) 0 1 1
     (by decide) (fun _ _ => rfl) (fun _ _ => rfl)⟩

/-- C7: a matcher honoring the qualifier contract selects, over the
samples {10, 20, 30}ns, the 10ns sample for boundary QualifiedTime(20ns,
closest-before) and the 20ns sample for boundary QualifiedTime(20ns,
exact-or-closest-before); in general closest-before accepts exactly the
nearest sample strictly earlier than the boundary instant, and
exact-or-closest-before accepts the exact match when present, otherwise
that nearest earlier sample. -/
theorem matcher_before_qualifiers :
    (QualifiedTime.select [10, 20, 30] 20 Qualifier.ClosestBefore = some 10) ∧
    (QualifiedTime.select [10, 20, 30] 20 Qualifier.OrClosestBefore = some 20) ∧
    (∀ (samples : List Time) (B S : Time),
      QualifiedTime.select samples B Qualifier.ClosestBefore = some S ↔
        S ∈ samples ∧ S < B ∧ ∀ x ∈ samples, x < B → x ≤ S) ∧
    (∀ (samples : List Time) (B : Time), B ∈ samples →
      QualifiedTime.select samples B Qualifier.OrClosestBefore = some B) ∧
    (∀ (samples : List Time) (B : Time), B ∉ samples →
      QualifiedTime.select samples B Qualifier.OrClosestBefore =
        QualifiedTime.closestBefore samples B) := by
  refine ⟨by decide, by decide, ?_, ?_, ?_⟩
  · exact fun samples B S => closestBefore_eq_some_iff
  · intro samples B h
    simp [QualifiedTime.select, h]
  · intro samples B h
    simp [QualifiedTime.select, h]

/-- C7 witness: for boundary 25ns with closest-before, the nearest
strictly earlier sample of {10, 20, 30}ns is 20ns. -/
theorem matcher_before_qualifiers_witness :
    QualifiedTime.select [10, 20, 30] 25 Qualifier.ClosestBefore = some 20 :=
  (matcher_before_qualifiers.2.2.1 [10, 20, 30] 25 20).mpr (by decide)

/-- C8: copying a QualifiedTime or a QualifiedTimeRange produces a value
whose observable accessor results equal the source's, and a subsequent
mutation of the source (any of SetTime, Clear, SetStart, SetFinish,
SetRange) leaves the copy's observable accessor results unchanged — the
copy still reports the source's pre-mutation observables while the source
holds the mutated state. -/
theorem copy_unaffected_by_source_mutation :
    (∀ (q : QualifiedTime) (m : QTMutation),
      (copyThenMutateQT q m).2.IsIndeterminate = q.IsIndeterminate ∧
      (copyThenMutateQT q m).2.GetTime = q.GetTime ∧
      (copyThenMutateQT q m).2.GetQualifier = q.GetQualifier ∧
      (copyThenMutateQT q m).1 = applyQT m q) ∧
    (∀ (r : QualifiedTimeRange) (m : QTRMutation),
      (copyThenMutateQTR r m).2.GetStart = r.GetStart ∧
      (copyThenMutateQTR r m).2.GetFinish = r.GetFinish ∧
      (copyThenMutateQTR r m).2.Valid = r.Valid ∧
      (copyThenMutateQTR r m).1 = applyQTR m r) :=
  ⟨fun _ _ => ⟨rfl, rfl, rfl, rfl⟩, fun _ _ => ⟨rfl, rfl, rfl, rfl⟩⟩

/-- C8 witness: after copying a pinned 5ns QualifiedTime and clearing the
source, the copy still reports the 5ns instant. -/
theorem copy_unaffected_by_source_mutation_witness :
    (copyThenMutateQT (QualifiedTime.pinned 5 Qualifier.OrClosestAfter)
      QTMutation.clear).2.GetTime = some 5 :=
  (copy_unaffected_by_source_mutation.1
    (QualifiedTime.pinned 5 Qualifier.OrClosestAfter) QTMutation.clear).2.1

/-- C9: calling SetTime with only an instant is equivalent to calling
SetTime with that instant and the OrClosestBefore qualifier — the header
defaults the qualifier parameter to OrClosestBefore, the same default as
the pinned constructor — so an unqualified SetTime(t) leaves
`GetQualifier()` reporting OrClosestBefore. -/
theorem setTime_default_is_orClosestBefore (q0 : QualifiedTime) (t : Time) :
    q0.SetTimeDefault t = q0.SetTime t Qualifier.OrClosestBefore ∧
    (q0.SetTimeDefault t).GetQualifier = some Qualifier.OrClosestBefore ∧
    q0.SetTimeDefault t = QualifiedTime.mkPinnedDefault t :=
  ⟨rfl, rfl, rfl⟩

/-- C9 witness: an unqualified SetTime(3ns) from the indeterminate state
reports the OrClosestBefore qualifier. -/
theorem setTime_default_is_orClosestBefore_witness :
    (QualifiedTime.indeterminate.SetTimeDefault 3).GetQualifier =
      some Qualifier.OrClosestBefore :=
  (setTime_default_is_orClosestBefore QualifiedTime.indeterminate 3).2.1

/-- C10: `SetRange(s, f)` leaves the range in the same observable state
as `SetStart(s)` followed by `SetFinish(f)`, and returns the same boolean
as the final `SetFinish(f)` of that sequence. -/
theorem setRange_eq_setStart_then_setFinish (r : QualifiedTimeRange)
    (s f : QualifiedTime) :
    (r.SetRange s f).2 = ((r.SetStart s).2.SetFinish f).2 ∧
    (r.SetRange s f).1 = ((r.SetStart s).2.SetFinish f).1 :=
  ⟨rfl, rfl⟩

/-- C10 witness: the equivalence at a concrete range and endpoints. -/
theorem setRange_eq_setStart_then_setFinish_witness :
    (QualifiedTimeRange.AllTime.SetRange
        (QualifiedTime.pinned 9 Qualifier.OrClosestBefore)
        (QualifiedTime.pinned 4 Qualifier.ClosestAfter)).1 =
      ((QualifiedTimeRange.AllTime.SetStart
          (QualifiedTime.pinned 9 Qualifier.OrClosestBefore)).2.SetFinish
        (QualifiedTime.pinned 4 Qualifier.ClosestAfter)).1 :=
  (setRange_eq_setStart_then_setFinish QualifiedTimeRange.AllTime
    (QualifiedTime.pinned 9 Qualifier.OrClosestBefore)
    (QualifiedTime.pinned 4 Qualifier.ClosestAfter)).2

end IgnTransportLog
